import Mathlib

/-!
Shallow embedding of the RTPS endpoint core (RustDDS): the writer proxy,
the history cache, the BitSet wire format, the writer engine and the
message receiver, together with theorems checking the natural-language
specification against the embedded code.

Machine integers (`i64` sequence numbers, `i32` counters) are embedded as
`Int`; `u32` storage words of the bit set are embedded as `Nat` together
with explicit `% 2^32` normalisation where the code relies on wrap-around
behaviour of `rotate_left`.
-/

namespace RustDDS

/-! ## Sequence numbers and writer proxy (`src/dds/rtps_writer_proxy.rs`)

A `SequenceNumber` is an `i64`, embedded as `Int`.  The proxy's
`changes: HashMap<SequenceNumber, Instant>` is embedded as the list of its
entries; a `HashMap` has no duplicate keys, which is recorded as a
hypothesis where a theorem needs it.  `Instant` is opaque and embedded as
`Nat`. -/

/-- One entry of the writer proxy's `changes` map: a received sequence
number together with the instant of reception. -/
structure ChangeEntry where
  seq : Int
  instant : Nat
  deriving DecidableEq, Repr

/-- Embedding of `RtpsWriterProxy`: the fields that the embedded
operations read.  Locator lists and the remote GUID take no part in the
sequence-number bookkeeping and are dropped. -/
structure RtpsWriterProxy where
  changes : List ChangeEntry
  receivedHeartbeatCount : Int
  sentAckNackCount : Int
  deriving Repr

namespace RtpsWriterProxy

/-- `self.changes.iter().min()`: the minimum key of the map.  Rust
compares `(SequenceNumber, Instant)` pairs lexicographically, which for
the distinct keys of a `HashMap` is the minimum key.  Embeds
`available_changes_min` of `rtps_writer_proxy.rs`. -/
def available_changes_min (p : RtpsWriterProxy) : Option Int :=
  (p.changes.map ChangeEntry.seq).min?

/-- `available_changes_max` of `rtps_writer_proxy.rs`. -/
def available_changes_max (p : RtpsWriterProxy) : Option Int :=
  (p.changes.map ChangeEntry.seq).max?

/-- `changes.contains_key(sn)`. -/
def containsKey (p : RtpsWriterProxy) (sn : Int) : Bool :=
  p.changes.any fun e => e.seq == sn

/-- `changes_are_missing` of `rtps_writer_proxy.rs`: take
`available_changes_min` (defaulting to 0 when the map is empty) and
return `hb_last_sn > min_sn`. -/
def changes_are_missing (p : RtpsWriterProxy) (hb_last_sn : Int) : Bool :=
  let min_sn := (p.available_changes_min).getD 0
  hb_last_sn > min_sn

/-- The Rust iteration `for sn_int in min_sn..hb_last_sn`: the ascending
list of integers in the half-open interval. -/
def intRange (lo hi : Int) : List Int :=
  (List.range (hi - lo).toNat).map fun (k : Nat) => lo + (k : Int)

/-- `missing_changes` of `rtps_writer_proxy.rs`: empty unless
`changes_are_missing` (the source returns early in that case), otherwise
every integer of `[available_min or 0, hb_last_sn)` that is not a key of
`changes`, pushed in ascending order. -/
def missing_changes (p : RtpsWriterProxy) (hb_last_sn : Int) : List Int :=
  if p.changes_are_missing hb_last_sn then
    let min_sn := (p.available_changes_min).getD 0
    (intRange min_sn hb_last_sn).filter fun sn => ¬ p.containsKey sn
  else []

/-- `received_changes_add` of `rtps_writer_proxy.rs`: `HashMap::insert`,
embedded as replace-or-append on the entry list. -/
def received_changes_add (p : RtpsWriterProxy) (sn : Int) (instant : Nat) :
    RtpsWriterProxy :=
  if p.containsKey sn then
    { p with changes := p.changes.map fun e =>
        if e.seq == sn then { e with instant := instant } else e }
  else
    { p with changes := p.changes ++ [⟨sn, instant⟩] }

/-- `irrelevant_changes_up_to` of `rtps_writer_proxy.rs`: remove every
entry with key below `smallest_seqnum` and return the removed instants. -/
def irrelevant_changes_up_to (p : RtpsWriterProxy) (smallest_seqnum : Int) :
    RtpsWriterProxy × List Nat :=
  ({ p with changes := p.changes.filter fun e => ¬ e.seq < smallest_seqnum },
   (p.changes.filter fun e => e.seq < smallest_seqnum).map ChangeEntry.instant)

/-- What the specification's sentence claims `missing_changes` returns:
ascending integers of `[lb, hb_last)` not in `received`, where
`lb = max(1, available_min)` and `lb = 1` when `received` is empty. -/
def missing_changes_specStatement (p : RtpsWriterProxy) (hb_last_sn : Int) :
    List Int :=
  let lb := match p.available_changes_min with
    | some m => max 1 m
    | none => 1
  (intRange lb hb_last_sn).filter fun sn => ¬ p.containsKey sn

end RtpsWriterProxy

/-! ## History cache (`src/structure/history_cache.rs`) -/

/-- `ChangeKind` of `cache_change.rs` (declared there; the variants are
named in `writer.rs` and the history-cache tests). -/
inductive ChangeKind where
  | alive
  | notAliveDisposed
  | notAliveUnregistered
  deriving DecidableEq, Repr

/-- Embedding of `CacheChange`: kind, writer GUID (opaque, as `Nat`),
instance handle (opaque), sequence number, and the optional data payload
(opaque, as `Option Nat`). -/
structure CacheChange where
  kind : ChangeKind
  writer_guid : Nat
  instance_handle : Nat
  sequence_number : Int
  data_value : Option Nat
  deriving DecidableEq, Repr

/-- Embedding of `HistoryCache`: the `Vec<CacheChange>` in push order. -/
structure HistoryCache where
  changes : List CacheChange
  deriving DecidableEq, Repr

namespace HistoryCache

/-- `HistoryCache::new`. -/
def new : HistoryCache := ⟨[]⟩

/-- `add_change`: `Vec::push`. -/
def add_change (hc : HistoryCache) (change : CacheChange) : HistoryCache :=
  ⟨hc.changes ++ [change]⟩

/-- `get_change`: `iter().find`, the first stored change with the
sequence number. -/
def get_change (hc : HistoryCache) (sequence_number : Int) :
    Option CacheChange :=
  hc.changes.find? fun x => x.sequence_number == sequence_number

/-- `remove_change`: `retain(|x| x.sequence_number != sequence_number)`. -/
def remove_change (hc : HistoryCache) (sequence_number : Int) : HistoryCache :=
  ⟨hc.changes.filter fun x => ¬ x.sequence_number == sequence_number⟩

/-- `remove_changes_up_to`: `retain(|x| x.sequence_number > smallest_seqnum)`. -/
def remove_changes_up_to (hc : HistoryCache) (smallest_seqnum : Int) :
    HistoryCache :=
  ⟨hc.changes.filter fun x => x.sequence_number > smallest_seqnum⟩

/-- `get_seq_num_min`. -/
def get_seq_num_min (hc : HistoryCache) : Option Int :=
  (hc.changes.map CacheChange.sequence_number).min?

/-- `get_seq_num_max`. -/
def get_seq_num_max (hc : HistoryCache) : Option Int :=
  (hc.changes.map CacheChange.sequence_number).max?

/-- `len`. -/
def len (hc : HistoryCache) : Nat := hc.changes.length

end HistoryCache

/-- A concrete cache change with sequence number 5, used to exercise the
history cache at the boundary of `remove_changes_up_to`. -/
def sampleChange5 : CacheChange :=
  { kind := .alive, writer_guid := 0, instance_handle := 0,
    sequence_number := 5, data_value := some 0 }

/-- A second concrete cache change with sequence number 5 but a distinct
payload, a duplicate of `sampleChange5` in the key sense. -/
def sampleChange5b : CacheChange :=
  { kind := .alive, writer_guid := 1, instance_handle := 0,
    sequence_number := 5, data_value := some 1 }

/-- A proxy with an empty `changes` map. -/
def emptyProxy : RtpsWriterProxy :=
  { changes := [], receivedHeartbeatCount := 0, sentAckNackCount := 0 }

/-- A proxy that has received exactly sequence numbers 1 and 2. -/
def proxy12 : RtpsWriterProxy :=
  { changes := [⟨1, 10⟩, ⟨2, 20⟩],
    receivedHeartbeatCount := 0, sentAckNackCount := 0 }

/-! ## BitSet wire format (`src/common/bit_set.rs`)

The `BitSet` is embedded by its backing storage: the list of `u32`
words, each embedded as a `Nat` reduced `% 2^32` wherever the code's
arithmetic could leave the range.  The speedy `Context` endianness
selects the byte order of each written `u32`. -/

/-- The speedy serialization context's endianness. -/
inductive Endianness where
  | little
  | big
  deriving DecidableEq, Repr

/-- `u32::leading_zeros`: the number of zero bits above the highest set
bit of a word in `[0, 2^32)` — position `31 - i` is a leading zero
exactly when shifting the word right by `31 - i` gives 0, so counting
those positions gives the leading-zero count (32 for the word 0). -/
def leadingZeros32 (w : Nat) : Nat :=
  ((List.range 32).filter fun i => w >>> (31 - i) = 0).length

/-- `u32::rotate_left`: the rotation amount acts modulo the word width,
and the result is a `u32` again. -/
def rotateLeft32 (w n : Nat) : Nat :=
  ((w <<< (n % 32)) ||| (w >>> (32 - n % 32))) % 2 ^ 32

/-- `write_u32` under an endianness context: the four bytes of a word in
the serialized order. -/
def u32ToBytes (e : Endianness) (w : Nat) : List Nat :=
  let le := [w % 256, w / 256 % 256, w / 256 ^ 2 % 256, w / 256 ^ 3 % 256]
  match e with
  | .little => le
  | .big => le.reverse

/-- `read_u32` under an endianness context: take four bytes from the
stream and return the word and the rest of the stream. -/
def readU32 (e : Endianness) : List Nat → Option (Nat × List Nat)
  | b0 :: b1 :: b2 :: b3 :: rest =>
    match e with
    | .little => some (b0 + 256 * (b1 + 256 * (b2 + 256 * b3)), rest)
    | .big => some (b3 + 256 * (b2 + 256 * (b1 + 256 * b0)), rest)
  | _ => none

/-- Read `k` consecutive `u32` words from the byte stream. -/
def readWords (e : Endianness) : Nat → List Nat → Option (List Nat × List Nat)
  | 0, bytes => some ([], bytes)
  | k + 1, bytes => do
    let (w, rest) ← readU32 e bytes
    let (ws, rest') ← readWords e k rest
    pure (w :: ws, rest')

/-- `impl Writable for BitSetRef` (`bit_set.rs` lines 53–66): write the
word count times 32 as a `u32`, then every storage word with
`rotate_left(leading_zeros)` applied — the quirk under test. -/
def writeBitSet (storage : List Nat) : List Nat :=
  (storage.length * 32) ::
    storage.map fun w => rotateLeft32 w (leadingZeros32 w)

/-- The full serialized byte stream of a `BitSetRef` under an
endianness context. -/
def serializeBitSet (e : Endianness) (storage : List Nat) : List Nat :=
  (writeBitSet storage).flatMap (u32ToBytes e)

/-- `impl Readable for BitSetRef` (`bit_set.rs` lines 33–51): read
`number_of_bits` as a `u32`, then push `number_of_bits / 32` raw words
into the backing storage. -/
def readBitSet (e : Endianness) (bytes : List Nat) : Option (List Nat) := do
  let (number_of_bits, rest) ← readU32 e bytes
  let (words, _) ← readWords e (number_of_bits / 32) rest
  pure words

/-- The little-endian byte vector the source's own
`bit_set_non_zero_size` test expects for the set `{0, 7, 42}` (storage
words `0x81` and `0x400`). -/
def bitSetTestVectorLE : List Nat :=
  [0x40, 0x00, 0x00, 0x00,
   0x81, 0x00, 0x00, 0x00,
   0x00, 0x04, 0x00, 0x00]

/-! ## Writer engine (`src/dds/writer.rs`)

The `Writer` is embedded with the fields its sequence-number and
cache-cleaning logic touches.  `Instant` values are the writer's own
monotone clock, incremented on every history-cache insertion.
`RtpsReaderProxy` (the matched-reader record inside the Writer) is not
under `src/`; its fields and operations are modelled from the
specification's §4.2. -/

/-- A GUID: participant prefix plus entity id, both opaque.  The field
names follow the source (`guidPrefix`, `entityId`). -/
structure GUID where
  guidPrefix : Nat
  entityId : Nat
  deriving DecidableEq, Repr

/-- Modelled from the spec: the per-matched-Reader record a Writer keeps
(`rtps_reader_proxy.rs` is not part of the sources).  Spec §4.2 / §3:
`{remote_reader_guid, remote_group_entity_id, unsent_changes,
requested_changes, highest_acked, is_reliable}`; locators are dropped. -/
structure RtpsReaderProxy where
  remoteReaderGuid : GUID
  remoteGroupEntityId : Nat
  isReliable : Bool
  unsentChanges : List Int
  requestedChanges : List Int
  highestAcked : Int
  deriving DecidableEq, Repr

namespace RtpsReaderProxy

/-- Modelled from the spec: `sequence_is_acked(seq)` — "for best-effort
readers this returns true unconditionally; for reliable readers,
`seq ≤ highest_acked`". -/
def sequence_is_acked (p : RtpsReaderProxy) (seq : Int) : Bool :=
  if p.isReliable then seq ≤ p.highestAcked else true

/-- Modelled from the spec: `add_requested_changes(set)` — union the
acknack's set into `requested_changes`.  (The spec's "only for seqs the
Writer still holds" proviso cannot live in this operation: the Writer's
call site passes only the acknack set.) -/
def add_requested_changes (p : RtpsReaderProxy) (set : List Int) :
    RtpsReaderProxy :=
  { p with requestedChanges :=
      p.requestedChanges ++ set.filter fun s => ¬ s ∈ p.requestedChanges }

/-- Modelled from the spec: `acked_changes_set(base)` — raise
`highest_acked` to `base − 1` and drop every sequence number below
`base` from `unsent_changes` and `requested_changes`. -/
def acked_changes_set (p : RtpsReaderProxy) (base : Int) : RtpsReaderProxy :=
  { p with
    highestAcked := max p.highestAcked (base - 1)
    unsentChanges := p.unsentChanges.filter fun s => ¬ s < base
    requestedChanges := p.requestedChanges.filter fun s => ¬ s < base }

/-- Modelled from the spec: `unsend_changes_set(new_last_seq)` — add the
newly published sequence number to `unsent_changes`. -/
def unsend_changes_set (p : RtpsReaderProxy) (new_last_seq : Int) :
    RtpsReaderProxy :=
  { p with unsentChanges := p.unsentChanges ++ [new_last_seq] }

/-- Modelled from the spec: `remove_unsent(seq)`. -/
def remove_unsend_change (p : RtpsReaderProxy) (seq : Int) :
    RtpsReaderProxy :=
  { p with unsentChanges := p.unsentChanges.filter fun s => ¬ s = seq }

/-- Modelled from the spec: `can_send()` — true iff
`unsent_changes ∪ requested_changes` is non-empty. -/
def can_send (p : RtpsReaderProxy) : Bool :=
  ¬ (p.unsentChanges.isEmpty && p.requestedChanges.isEmpty)

end RtpsReaderProxy

/-- `policy::History` of the QoS module (named in `writer.rs`). -/
inductive History where
  | keepAll
  | keepLast (depth : Int)
  deriving DecidableEq, Repr

/-- The acknack's `reader_sn_state`: a cumulative base plus the
negatively-acknowledged set. -/
structure SequenceNumberSet where
  base : Int
  set : List Int
  deriving DecidableEq, Repr

/-- The `AckNack` submessage fields `handle_ack_nack` reads. -/
structure AckNack where
  readerId : Nat
  readerSNState : SequenceNumberSet
  count : Int
  deriving DecidableEq, Repr

/-- `DDSData`: the sample handed from the DataWriter to the Writer; the
Writer reads its change kind and key hash, and stores the payload. -/
structure DDSData where
  changeKind : ChangeKind
  valueKeyHash : Nat
  payload : Nat
  deriving DecidableEq, Repr

/-- A `BTreeMap` embedded as an association list sorted strictly by key:
sorted insertion, overwriting an equal key. -/
def btreeInsert {α β : Type} [LinearOrder α] :
    List (α × β) → α → β → List (α × β)
  | [], k, v => [(k, v)]
  | (k', v') :: rest, k, v =>
    if k < k' then (k, v) :: (k', v') :: rest
    else if k = k' then (k, v) :: rest
    else (k', v') :: btreeInsert rest k v

/-- Embedding of `Writer` (`writer.rs`): the sequence-number counters,
the matched-reader proxies, the per-topic cache view, and the secondary
indexes.  The topic's `DDSCache` is not under `src/`; modelled from the
spec as a map from insertion instant to cache change.  `reliable`
embeds `is_reliable()` over `qos_policies.reliability`. -/
structure Writer where
  writerGuid : Nat
  reliable : Bool
  history : Option History
  lastChangeSequenceNumber : Int
  firstChangeSequenceNumber : Int
  readers : List RtpsReaderProxy
  sequenceNumberToInstant : List (Int × Nat)
  topicCache : List (Nat × CacheChange)
  keyToInstant : List (Nat × Nat)
  writerIsDisposed : Bool
  heartbeatMessageCounter : Int
  clock : Nat
  deriving Repr

namespace Writer

/-- `Writer::new`: zero sequence counters, no matched readers, empty
caches, heartbeat counter 1. -/
def new (guid : Nat) (reliable : Bool) (history : Option History) : Writer :=
  { writerGuid := guid
    reliable := reliable
    history := history
    lastChangeSequenceNumber := 0
    firstChangeSequenceNumber := 0
    readers := []
    sequenceNumberToInstant := []
    topicCache := []
    keyToInstant := []
    writerIsDisposed := false
    heartbeatMessageCounter := 1
    clock := 0 }

/-- `increase_last_change_sequence_number`. -/
def increase_last_change_sequence_number (w : Writer) : Writer :=
  { w with lastChangeSequenceNumber := w.lastChangeSequenceNumber + 1 }

/-- `writer_set_unsent_changes`: give the new last sequence number to
every matched reader proxy's unsent set. -/
def writer_set_unsent_changes (w : Writer) : Writer :=
  { w with readers := w.readers.map fun r =>
      r.unsend_changes_set w.lastChangeSequenceNumber }

/-- An assoc-list `HashMap::insert` (replace or append); embeds
`key_to_instant.insert`. -/
def hashInsert (l : List (Nat × Nat)) (k v : Nat) : List (Nat × Nat) :=
  if l.any fun e => e.1 == k then
    l.map fun e => if e.1 == k then (k, v) else e
  else l ++ [(k, v)]

/-- `insert_to_history_cache` (`writer.rs` lines 373–404): set the
disposed flag from the change kind, bump `last_change_sequence_number`,
lift `first_change_sequence_number` to 1 on the first write, build the
cache change, add it to the topic cache at the current instant, index
the sequence number and the key hash by that instant, and put the new
sequence number in every reader proxy's unsent set. -/
def insert_to_history_cache (w : Writer) (data : DDSData) : Writer :=
  let w := { w with writerIsDisposed :=
    match data.changeKind with
    | .alive => false
    | _ => true }
  let w := w.increase_last_change_sequence_number
  let w := if w.firstChangeSequenceNumber = 0 then
    { w with firstChangeSequenceNumber := 1 } else w
  let newCacheChange : CacheChange :=
    { kind := data.changeKind
      writer_guid := w.writerGuid
      instance_handle := 0
      sequence_number := w.lastChangeSequenceNumber
      data_value := some data.payload }
  let insta := w.clock
  let w := { w with
    topicCache := w.topicCache ++ [(insta, newCacheChange)]
    sequenceNumberToInstant :=
      btreeInsert w.sequenceNumberToInstant w.lastChangeSequenceNumber insta
    keyToInstant := hashInsert w.keyToInstant data.valueKeyHash insta
    clock := w.clock + 1 }
  w.writer_set_unsent_changes

/-- `change_with_sequence_number_is_acked_by_all`. -/
def change_with_sequence_number_is_acked_by_all (w : Writer)
    (sequence_number : Int) : Bool :=
  w.readers.all fun proxy => proxy.sequence_is_acked sequence_number

/-- Modelled from the spec: `DDSCache::from_topic_remove_change`
(`dds_cache.rs` is not part of the sources) — remove and return the
cache change stored at the given instant. -/
def fromTopicRemoveChange (cache : List (Nat × CacheChange)) (i : Nat) :
    List (Nat × CacheChange) × Option CacheChange :=
  ((cache.filter fun e => ¬ e.1 = i),
   (cache.find? fun e => e.1 == i).map Prod.snd)

/-- The `acked_by_all_readers` map of
`remove_all_acked_changes_but_keep_depth`: iterate
`sequence_number_to_instant`, and insert `(instant, seq)` into a
`BTreeMap` keyed by instant for every change acked by all readers. -/
def ackedByAllReaders (w : Writer) : List (Nat × Int) :=
  (w.sequenceNumberToInstant.filter fun e =>
      w.change_with_sequence_number_is_acked_by_all e.1).foldl
    (fun m e => btreeInsert m e.2 e.1) []

/-- One iteration of the removal loop of
`remove_all_acked_changes_but_keep_depth`: remove the change at the
entry's instant from the topic cache and, when one was there, record its
sequence number (the `None` case is the source's `warn!` branch). -/
def removeChangeStep (st : Writer × List Int) (e : Nat × Int) :
    Writer × List Int :=
  let (cache, removed) := fromTopicRemoveChange st.1.topicCache e.1
  match removed with
  | some c => ({ st.1 with topicCache := cache }, st.2 ++ [c.sequence_number])
  | none => (st.1, st.2)

/-- `remove_all_acked_changes_but_keep_depth` (`writer.rs` lines
425–467): if at most `depth` changes are acked by all readers do
nothing; otherwise walk the acked map in ascending instant order and
remove the first `count − depth` changes from the topic cache,
collecting the sequence numbers of those actually removed. -/
def remove_all_acked_changes_but_keep_depth (w : Writer) (depth : Int) :
    Writer × List Int :=
  let acked_by_all_readers := w.ackedByAllReaders
  if (acked_by_all_readers.length : Int) ≤ depth then (w, [])
  else
    let amount_need_to_remove :=
      ((acked_by_all_readers.length : Int) - depth).toNat
    (acked_by_all_readers.take amount_need_to_remove).foldl
      removeChangeStep (w, [])

/-- `handle_cache_cleaning` (`writer.rs` lines 238–258): depth 0 without
a history QoS, keep everything under `KeepAll`, depth `d` under
`KeepLast{d}`; afterwards drop the removed sequence numbers from
`sequence_number_to_instant`. -/
def handle_cache_cleaning (w : Writer) : Writer :=
  let res :=
    match w.history with
    | none => w.remove_all_acked_changes_but_keep_depth 0
    | some .keepAll => (w, [])
    | some (.keepLast d) => w.remove_all_acked_changes_but_keep_depth d
  { res.1 with sequenceNumberToInstant :=
      res.1.sequenceNumberToInstant.filter fun e => ¬ e.1 ∈ res.2 }

/-- `test_if_ack_nack_contains_not_recieved_sequence_numbers`: the
acknack is negative iff its `reader_sn_state.set` is non-empty. -/
def test_if_ack_nack_contains_not_recieved_sequence_numbers
    (ack_nack : AckNack) : Bool :=
  ¬ ack_nack.readerSNState.set.isEmpty

/-- `matched_reader_lookup`, embedded as the index of the first matched
reader proxy whose GUID is `{guidPrefix, reader_entity_id}`. -/
def matched_reader_lookup_idx (w : Writer) (guidPrefix : Nat)
    (reader_entity_id : Nat) : Option Nat :=
  w.readers.findIdx? fun x =>
    x.remoteReaderGuid == GUID.mk guidPrefix reader_entity_id

/-- `handle_ack_nack` (`writer.rs` lines 931–948): ignore unless
reliable; look the proxy up by the sender's prefix and the acknack's
reader id; negative acknacks add requested changes, positive ones apply
`acked_changes_set(base)`. -/
def handle_ack_nack (w : Writer) (guidPrefix : Nat) (an : AckNack) :
    Writer :=
  if ¬ w.reliable then w
  else
    match w.matched_reader_lookup_idx guidPrefix an.readerId with
    | none => w
    | some i =>
      match w.readers[i]? with
      | none => w
      | some reader_proxy =>
        let reader_proxy' :=
          if test_if_ack_nack_contains_not_recieved_sequence_numbers an then
            reader_proxy.add_requested_changes an.readerSNState.set
          else
            reader_proxy.acked_changes_set an.readerSNState.base
        { w with readers := w.readers.set i reader_proxy' }

/-- `matched_reader_add` (`writer.rs` lines 950–958): `none` embeds the
`panic!` on a proxy duplicating both the remote reader GUID and the
remote group entity id of an existing one; otherwise the proxy is pushed
onto `readers`. -/
def matched_reader_add (w : Writer) (reader_proxy : RtpsReaderProxy) :
    Option Writer :=
  if w.readers.any fun x =>
      x.remoteGroupEntityId == reader_proxy.remoteGroupEntityId
        && x.remoteReaderGuid == reader_proxy.remoteReaderGuid then
    none
  else some { w with readers := w.readers ++ [reader_proxy] }

end Writer

/-! ## Message receiver (`src/rtps/message_receiver.rs`)

The receiver's submessage interpreter is embedded as a state transformer
returning the mutated receiver plus the list of deliveries it performed.
Entity-submessage routing to individual readers, and the acknack channel
forward, are outside the sequence-number claims; a delivery is recorded
as an event carrying the submessage.  Warnings and logs produce no
event.  GUID prefixes, protocol versions, vendor ids, locators and the
payloads of entity and security submessages are opaque (`Nat`). -/

/-- `GuidPrefix::UNKNOWN`. -/
def GUIDPREFIX_UNKNOWN : Nat := 0

/-- The interpreter submessages, with the fields
`handle_interpreter_submessage` reads. -/
inductive InterpreterSubmessage where
  | infoTimestamp (timestamp : Option Nat)
  | infoSource (srcGuidPrefix : Nat) (protocolVersion : Nat) (vendorId : Nat)
  | infoReply (unicastLocatorList : List Nat)
      (multicastLocatorList : Option (List Nat)) (multicastFlag : Bool)
  | infoDestination (destGuidPrefix : Nat)
  deriving DecidableEq, Repr

/-- A writer-entity submessage (Data, Heartbeat, Gap, DataFrag,
HeartbeatFrag); its contents are opaque to the secure state machine. -/
structure WriterSubmessage where
  content : Nat
  deriving DecidableEq, Repr

/-- A reader-entity submessage (AckNack, NackFrag); contents opaque. -/
structure ReaderSubmessage where
  content : Nat
  deriving DecidableEq, Repr

/-- The security submessages; bodies opaque. -/
inductive SecuritySubmessage where
  | secureBody (c : Nat)
  | securePrefix (c : Nat)
  | securePostfix (c : Nat)
  | secureRTPSPrefix (c : Nat)
  | secureRTPSPostfix (c : Nat)
  deriving DecidableEq, Repr

/-- `SubmessageBody`: the tagged sum the receiver dispatches on. -/
inductive SubmessageBody where
  | interpreter (m : InterpreterSubmessage)
  | writer (m : WriterSubmessage)
  | reader (m : ReaderSubmessage)
  | security (m : SecuritySubmessage)
  deriving DecidableEq, Repr

/-- A submessage; the header adds nothing the dispatcher reads. -/
structure Submessage where
  body : SubmessageBody
  deriving DecidableEq, Repr

/-- `SecureReceiverState`: either only a SecurePrefix was received
(source constructor `Prefix`), or a prefix plus one buffered
submessage. -/
inductive SecureReceiverState where
  | prefixState (p : Nat)
  | secureSubmessage (p : Nat) (s : Submessage)
  deriving DecidableEq, Repr

/-- `preprocess_secure_submsg`'s classification of a secure triad. -/
inductive SecureSubmessageKind where
  | infoSubmessage
  | datawriterSubmessage
  | datareaderSubmessage
  deriving DecidableEq, Repr

/-- The security-plugin capability the receiver consumes; `none` results
embed the `Err` branches.  The crypto handles the source threads from
`preprocess` to `decode` are folded into the opaque prefix value. -/
structure SecurityPlugins where
  preprocessSecureSubmessage : Nat → Option SecureSubmessageKind
  decodeDatawriterSubmessage : Nat → Submessage → Nat → Option WriterSubmessage
  decodeDatareaderSubmessage : Nat → Submessage → Nat → Option ReaderSubmessage

/-- Embedding of `MessageReceiver`: the per-datagram interpreter state
(`available_readers` and channels are behind delivery events). -/
structure MessageReceiver where
  ownGuidPrefix : Nat
  sourceVersion : Nat
  sourceVendorId : Nat
  sourceGuidPrefix : Nat
  destGuidPrefix : Nat
  unicastReplyLocatorList : List Nat
  multicastReplyLocatorList : List Nat
  sourceTimestamp : Option Nat
  secureReceiverState : Option SecureReceiverState
  securityPlugins : Option SecurityPlugins

/-- A delivery performed by the receiver: an entity submessage reaching
the reader side (`handle_writer_submessage` body) or the writer side
(`handle_reader_submessage` body). -/
inductive Effect where
  | writerSubmessageDelivered (m : WriterSubmessage)
  | readerSubmessageDelivered (m : ReaderSubmessage)
  deriving DecidableEq, Repr

namespace MessageReceiver

/-- `reset`: called at the start of each datagram. -/
def reset (r : MessageReceiver) : MessageReceiver :=
  { r with
    sourceVendorId := 0
    sourceGuidPrefix := GUIDPREFIX_UNKNOWN
    destGuidPrefix := GUIDPREFIX_UNKNOWN
    unicastReplyLocatorList := []
    multicastReplyLocatorList := []
    sourceTimestamp := none
    secureReceiverState := none }

/-- The guard of the entity and security dispatch paths: the message is
dropped unless `dest_guid_prefix` is this participant or unknown. -/
def destMismatch (r : MessageReceiver) : Bool :=
  ¬ r.destGuidPrefix = r.ownGuidPrefix ∧
    ¬ r.destGuidPrefix = GUIDPREFIX_UNKNOWN

/-- `handle_writer_submessage`: drop on destination mismatch, otherwise
the submessage reaches the reader side (routing by entity id is behind
the event). -/
def handle_writer_submessage (r : MessageReceiver) (m : WriterSubmessage) :
    MessageReceiver × List Effect :=
  if r.destMismatch then (r, [])
  else (r, [.writerSubmessageDelivered m])

/-- `handle_reader_submessage`: drop on destination mismatch, otherwise
the submessage is forwarded to the writer side. -/
def handle_reader_submessage (r : MessageReceiver) (m : ReaderSubmessage) :
    MessageReceiver × List Effect :=
  if r.destMismatch then (r, [])
  else (r, [.readerSubmessageDelivered m])

/-- `handle_interpreter_submessage`: mutate the receiver state only. -/
def handle_interpreter_submessage (r : MessageReceiver)
    (m : InterpreterSubmessage) : MessageReceiver :=
  match m with
  | .infoTimestamp ts => { r with sourceTimestamp := ts }
  | .infoSource gp v vid =>
    { r with
      sourceGuidPrefix := gp
      sourceVersion := v
      sourceVendorId := vid
      unicastReplyLocatorList := []
      multicastReplyLocatorList := []
      sourceTimestamp := none }
  | .infoReply ull mll mcFlag =>
    { r with
      unicastReplyLocatorList := ull
      multicastReplyLocatorList :=
        match mcFlag, mll with
        | true, some ll => ll
        | true, none => []
        | false, none => []
        | false, some _ => [] }
  | .infoDestination gp =>
    if gp = GUIDPREFIX_UNKNOWN then
      { r with destGuidPrefix := r.ownGuidPrefix }
    else { r with destGuidPrefix := gp }

/-- The `None`-state body of `handle_submessage`: normal, non-security
processing, plus the transitions of the security submessages. -/
def handleSubmessageStateNone (r : MessageReceiver) (sub : Submessage) :
    MessageReceiver × List Effect :=
  match sub.body with
  | .interpreter m => (r.handle_interpreter_submessage m, [])
  | .writer m => r.handle_writer_submessage m
  | .reader m => r.handle_reader_submessage m
  | .security m =>
    if r.destMismatch then (r, [])
    else
      match m with
      | .secureBody _ => (r, [])
      | .securePrefix p =>
        ({ r with secureReceiverState := some (.prefixState p) }, [])
      | .securePostfix _ => (r, [])
      | .secureRTPSPrefix _ => (r, [])
      | .secureRTPSPostfix _ => (r, [])

/-- `handle_secure_submessage` (`message_receiver.rs` lines 684–764):
preprocess the triad; info submessages are re-handled plainly (the
source's recursive `handle_submessage` call runs with the state already
reset to `None`, which is `handleSubmessageStateNone`); datawriter and
datareader submessages are decoded and dispatched; every error path
drops the triad. -/
def handle_secure_submessage (r : MessageReceiver) (p : Nat)
    (encodedSubmessage : Submessage) (q : Nat) :
    MessageReceiver × List Effect :=
  match r.securityPlugins with
  | none => (r, [])
  | some plugins =>
    match plugins.preprocessSecureSubmessage p with
    | none => (r, [])
    | some .infoSubmessage => handleSubmessageStateNone r encodedSubmessage
    | some .datawriterSubmessage =>
      match plugins.decodeDatawriterSubmessage p encodedSubmessage q with
      | some m => r.handle_writer_submessage m
      | none => (r, [])
    | some .datareaderSubmessage =>
      match plugins.decodeDatareaderSubmessage p encodedSubmessage q with
      | some m => r.handle_reader_submessage m
      | none => (r, [])

/-- `handle_submessage` (`message_receiver.rs` lines 273–350): the
secure-receiver state machine.  The source's `.take()` resets the state
to `None` before the match, so every branch that should keep another
value sets it explicitly. -/
def handle_submessage (r : MessageReceiver) (sub : Submessage) :
    MessageReceiver × List Effect :=
  match r.secureReceiverState with
  | none => handleSubmessageStateNone { r with secureReceiverState := none } sub
  | some (.prefixState p) =>
    ({ r with secureReceiverState := some (.secureSubmessage p sub) }, [])
  | some (.secureSubmessage p s) =>
    let r' := { r with secureReceiverState := none }
    match sub.body with
    | .security (.securePostfix q) => r'.handle_secure_submessage p s q
    | _ => (r', [])

end MessageReceiver

/-- A concrete receiver sitting in state `SecureSubmessage`: prefix 3
with a buffered Data submessage, no security plugins, destination this
participant. -/
def receiverInSecureSubmessageState : MessageReceiver :=
  { ownGuidPrefix := 9
    sourceVersion := 0
    sourceVendorId := 0
    sourceGuidPrefix := 5
    destGuidPrefix := 9
    unicastReplyLocatorList := []
    multicastReplyLocatorList := []
    sourceTimestamp := none
    secureReceiverState :=
      some (.secureSubmessage 3 ⟨.writer ⟨7⟩⟩)
    securityPlugins := none }

/-- A concrete receiver in state `None`. -/
def receiverInNoneState : MessageReceiver :=
  { receiverInSecureSubmessageState with secureReceiverState := none }

/-- A concrete matched-reader proxy (reliable, nothing pending). -/
def sampleProxy : RtpsReaderProxy :=
  { remoteReaderGuid := ⟨5, 1⟩
    remoteGroupEntityId := 2
    isReliable := true
    unsentChanges := []
    requestedChanges := []
    highestAcked := 0 }

/-- A proxy duplicating `sampleProxy`'s remote reader GUID and remote
group entity id (with different delivery state). -/
def sampleProxyDup : RtpsReaderProxy :=
  { sampleProxy with highestAcked := 7 }

/-- A proxy with a fresh remote reader GUID. -/
def sampleProxyFresh : RtpsReaderProxy :=
  { sampleProxy with remoteReaderGuid := ⟨6, 1⟩ }

/-- A concrete reliable writer with `sampleProxy` matched. -/
def sampleWriter : Writer :=
  { Writer.new 11 true (some (.keepLast 2)) with readers := [sampleProxy] }

/-- A concrete negative acknack for `sampleProxy` (set `{2, 3}`). -/
def sampleAckNackNegative : AckNack :=
  { readerId := 1, readerSNState := { base := 4, set := [2, 3] }, count := 0 }

/-- A cache change of `cacheWriter` with the given sequence number. -/
def cacheChangeAt (s : Int) : CacheChange :=
  { kind := .alive, writer_guid := 11, instance_handle := 0,
    sequence_number := s, data_value := some 0 }

/-- A concrete writer ready for a cache-cleaning pass: history
`KeepLast{1}`, one reliable matched reader that has acked everything,
and three published changes (sequence numbers 1, 2, 3 at instants
0, 1, 2). -/
def cacheWriter : Writer :=
  { Writer.new 11 true (some (.keepLast 1)) with
    readers := [{ sampleProxy with highestAcked := 5 }]
    sequenceNumberToInstant := [(1, 0), (2, 1), (3, 2)]
    topicCache := [(0, cacheChangeAt 1), (1, cacheChangeAt 2),
      (2, cacheChangeAt 3)]
    clock := 3 }

end RustDDS

namespace RustDDS

/-! ## Theorems: C1 -/

/-- C1 (counterexample).  The claim says the lower bound of
`missing_changes` is `max(1, available_min)`, equal to 1 when `received`
is empty.  On an empty proxy with heartbeat last 2 the code returns
`[0, 1]` — lower bound 0 — while the claimed set is `[1]`. -/
theorem missing_changes_lower_bound_counterexample :
    emptyProxy.missing_changes 2 = [0, 1] ∧
    emptyProxy.missing_changes_specStatement 2 = [1] := by
  constructor <;> rfl

/-- Membership in the embedded Rust integer range `lo..hi`. -/
theorem mem_intRange (lo hi s : Int) :
    s ∈ RtpsWriterProxy.intRange lo hi ↔ lo ≤ s ∧ s < hi := by
  unfold RtpsWriterProxy.intRange
  rw [List.mem_map]
  constructor
  · rintro ⟨k, hk, rfl⟩
    rw [List.mem_range] at hk
    omega
  · rintro ⟨h1, h2⟩
    refine ⟨(s - lo).toNat, ?_, ?_⟩
    · rw [List.mem_range]; omega
    · omega

/-- The embedded Rust integer range is strictly ascending. -/
theorem sorted_intRange (lo hi : Int) :
    (RtpsWriterProxy.intRange lo hi).Sorted (· < ·) := by
  unfold RtpsWriterProxy.intRange
  refine List.pairwise_map.mpr ?_
  exact (List.pairwise_lt_range _).imp fun h => by omega

/-- C1 (amended).  `missing_changes(h)` is the ascending-sorted list of
the sequence numbers of `[lb, h)` that are not keys of `received`, where
the lower bound `lb` is `available_min`, taken as 0 when `received` is
empty (not `max(1, available_min)` and not 1). -/
theorem missing_changes_characterization (p : RtpsWriterProxy) (h : Int) :
    (p.missing_changes h).Sorted (· < ·) ∧
    ∀ s : Int, s ∈ p.missing_changes h ↔
      ((p.available_changes_min).getD 0 ≤ s ∧ s < h ∧
        ¬ (∃ e ∈ p.changes, e.seq = s)) := by
  unfold RtpsWriterProxy.missing_changes
  cases hm : p.changes_are_missing h with
  | true =>
    rw [if_pos rfl]
    constructor
    · exact List.Pairwise.sublist (List.filter_sublist _) (sorted_intRange _ _)
    · intro s
      rw [List.mem_filter, mem_intRange]
      simp only [RtpsWriterProxy.containsKey, List.any_eq_true, beq_iff_eq,
        decide_eq_true_eq, and_assoc]
  | false =>
    rw [if_neg (by simp)]
    refine ⟨List.sorted_nil, fun s => ?_⟩
    simp only [List.not_mem_nil, false_iff]
    rintro ⟨hs1, hs2, -⟩
    simp only [RtpsWriterProxy.changes_are_missing, gt_iff_lt,
      decide_eq_false_iff_not, not_lt] at hm
    omega

/-! ## Theorems: C3 -/

/-- C3 (counterexample).  The claim says `changes_are_missing(hb_last)`
is true iff some sequence number of `[available_min, hb_last)` is not a
key of `received`.  With `received = {1, 2}` and `hb_last = 3` the code
returns `true` although every element of `[1, 3)` is a received key. -/
theorem changes_are_missing_counterexample :
    proxy12.changes_are_missing 3 = true ∧
    proxy12.available_changes_min = some 1 ∧
    ¬ ∃ s : Int, 1 ≤ s ∧ s < 3 ∧ ¬ ∃ e ∈ proxy12.changes, e.seq = s := by
  refine ⟨rfl, rfl, ?_⟩
  rintro ⟨s, hs1, hs2, hni⟩
  apply hni
  have : s = 1 ∨ s = 2 := by omega
  rcases this with rfl | rfl
  · exact ⟨⟨1, 10⟩, by simp [proxy12], rfl⟩
  · exact ⟨⟨2, 20⟩, by simp [proxy12], rfl⟩

/-- C3 (amended).  `changes_are_missing(hb_last)` returns true iff the
interval `[lb, hb_last)` is non-empty, where `lb` is `available_min`
(0 when `received` is empty) — it does not check whether its elements
were actually received. -/
theorem changes_are_missing_iff (p : RtpsWriterProxy) (hb : Int) :
    p.changes_are_missing hb = true ↔
      ∃ s : Int, (p.available_changes_min).getD 0 ≤ s ∧ s < hb := by
  unfold RtpsWriterProxy.changes_are_missing
  simp only [gt_iff_lt, decide_eq_true_eq]
  constructor
  · intro hlt
    exact ⟨(p.available_changes_min).getD 0, le_refl _, hlt⟩
  · rintro ⟨s, h1, h2⟩
    omega

/-! ## Theorems: C2 -/

/-- C2 (counterexample).  The claim says every change with sequence
number `≥ n` survives `remove_changes_up_to(n)`.  A change with sequence
number exactly 5 is stored, `remove_changes_up_to(5)` is applied, and
the change is gone: the code retains strictly greater sequence numbers
only. -/
theorem remove_changes_up_to_counterexample :
    sampleChange5 ∈ (HistoryCache.new.add_change sampleChange5).changes ∧
    (5 : Int) ≤ sampleChange5.sequence_number ∧
    sampleChange5 ∉
      ((HistoryCache.new.add_change sampleChange5).remove_changes_up_to 5).changes := by
  refine ⟨by simp [HistoryCache.new, HistoryCache.add_change], le_refl _, ?_⟩
  simp [HistoryCache.new, HistoryCache.add_change,
    HistoryCache.remove_changes_up_to, sampleChange5]

/-- C2 (amended).  `remove_changes_up_to(n)` removes exactly the changes
whose sequence number is less than **or equal to** `n`: a change remains
in the cache iff it was there before and its sequence number is strictly
greater than `n`. -/
theorem remove_changes_up_to_characterization (hc : HistoryCache) (n : Int)
    (c : CacheChange) :
    c ∈ (hc.remove_changes_up_to n).changes ↔
      c ∈ hc.changes ∧ n < c.sequence_number := by
  simp [HistoryCache.remove_changes_up_to, List.mem_filter]

/-! ## Theorems: C10 -/

/-- C10.  `add_change` never rejects or replaces: pushing a change whose
sequence number duplicates a stored one keeps both (the length grows by
one each time and both changes are present); `get_change` then returns
the earliest-added matching change; `remove_change` removes every stored
change carrying that sequence number. -/
theorem add_change_keeps_duplicates (hc : HistoryCache) (c₁ c₂ : CacheChange)
    (hseq : c₂.sequence_number = c₁.sequence_number) :
    ((hc.add_change c₁).add_change c₂).len = hc.len + 2 ∧
    c₁ ∈ ((hc.add_change c₁).add_change c₂).changes ∧
    c₂ ∈ ((hc.add_change c₁).add_change c₂).changes ∧
    (hc.get_change c₁.sequence_number = none →
      ((hc.add_change c₁).add_change c₂).get_change c₁.sequence_number
        = some c₁) ∧
    (((hc.add_change c₁).add_change c₂).remove_change
        c₁.sequence_number).changes
      = hc.changes.filter fun x => ¬ x.sequence_number == c₁.sequence_number := by
  refine ⟨by simp [HistoryCache.add_change, HistoryCache.len], ?_, ?_, ?_, ?_⟩
  · simp [HistoryCache.add_change]
  · simp [HistoryCache.add_change]
  · intro hnone
    unfold HistoryCache.get_change at hnone ⊢
    simp only [HistoryCache.add_change, List.append_assoc]
    rw [List.find?_append, hnone]
    simp
  · unfold HistoryCache.remove_change
    simp only [HistoryCache.add_change, List.append_assoc, List.filter_append]
    simp [hseq]

/-- C10 witness: the theorem applied to an empty cache and two concrete
changes sharing sequence number 5. -/
theorem add_change_keeps_duplicates_witness :
    sampleChange5b.sequence_number = sampleChange5.sequence_number ∧
    (((HistoryCache.new.add_change sampleChange5).add_change
        sampleChange5b).len = HistoryCache.new.len + 2 ∧
    sampleChange5 ∈ ((HistoryCache.new.add_change sampleChange5).add_change
        sampleChange5b).changes ∧
    sampleChange5b ∈ ((HistoryCache.new.add_change sampleChange5).add_change
        sampleChange5b).changes ∧
    (HistoryCache.new.get_change sampleChange5.sequence_number = none →
      ((HistoryCache.new.add_change sampleChange5).add_change
          sampleChange5b).get_change sampleChange5.sequence_number
        = some sampleChange5) ∧
    (((HistoryCache.new.add_change sampleChange5).add_change
          sampleChange5b).remove_change
        sampleChange5.sequence_number).changes
      = HistoryCache.new.changes.filter
          fun x => ¬ x.sequence_number == sampleChange5.sequence_number) :=
  ⟨rfl, add_change_keeps_duplicates HistoryCache.new sampleChange5
    sampleChange5b rfl⟩

/-! ## Theorems: C4 -/

/-- C4.  Deserialization does not invert serialization: for the bit set
whose storage is the single word 1 (bit 0 set), the writer rotates the
word to `0x80000000` (bit 31) and the reader reads it back raw, under
both endianness contexts — while the reader does agree with the byte
vectors of the source's own `bit_set_non_zero_size` test, which the
writer fails to reproduce for the same storage `[0x81, 0x400]`. -/
theorem bitset_roundtrip_fails :
    readBitSet .little (serializeBitSet .little [1]) = some [0x80000000] ∧
    readBitSet .big (serializeBitSet .big [1]) = some [0x80000000] ∧
    (0x80000000 : Nat) ≠ 1 ∧
    readBitSet .little bitSetTestVectorLE = some [0x81, 0x400] ∧
    serializeBitSet .little [0x81, 0x400] ≠ bitSetTestVectorLE :=
  ⟨rfl, rfl, by decide, rfl, by decide⟩

/-! ## Theorems: C7 -/

/-- One history-cache insertion bumps `last_change_sequence_number` by
exactly one and lifts `first_change_sequence_number` from 0 to 1. -/
theorem insert_to_history_cache_counters (w : Writer) (d : DDSData) :
    (w.insert_to_history_cache d).lastChangeSequenceNumber
      = w.lastChangeSequenceNumber + 1 ∧
    (w.insert_to_history_cache d).firstChangeSequenceNumber
      = (if w.firstChangeSequenceNumber = 0 then 1
         else w.firstChangeSequenceNumber) := by
  unfold Writer.insert_to_history_cache Writer.writer_set_unsent_changes
    Writer.increase_last_change_sequence_number
  split <;> by_cases hf : w.firstChangeSequenceNumber = 0 <;> simp [hf]

/-- The sequence counters after any publish sequence. -/
theorem foldl_insert_counters (ds : List DDSData) (w : Writer) :
    (ds.foldl Writer.insert_to_history_cache w).lastChangeSequenceNumber
      = w.lastChangeSequenceNumber + ds.length ∧
    (ds.foldl Writer.insert_to_history_cache w).firstChangeSequenceNumber
      = (if ds.isEmpty then w.firstChangeSequenceNumber
         else if w.firstChangeSequenceNumber = 0 then 1
         else w.firstChangeSequenceNumber) := by
  induction ds generalizing w with
  | nil => simp
  | cons d ds ih =>
    simp only [List.foldl_cons, List.isEmpty_cons]
    obtain ⟨h1, h2⟩ := ih (w.insert_to_history_cache d)
    obtain ⟨s1, s2⟩ := insert_to_history_cache_counters w d
    refine ⟨by rw [h1, s1, List.length_cons]; push_cast; ring, ?_⟩
    rw [h2, s2]
    by_cases hf : w.firstChangeSequenceNumber = 0 <;>
      by_cases he : ds.isEmpty <;> simp [hf, he]

/-- C7.  On a fresh Writer, every publish increments
`last_change_sequence_number` by exactly one, so after `k` publishes it
equals `k` and its successive values are `1, 2, 3, …` — strictly
increasing from 1; `first_change_sequence_number` is 0 before the first
publish and 1 from the first publish onward, so
`first_seq ≤ last_seq` always holds. -/
theorem publish_sequence_numbers_monotonic (guid : Nat) (reliable : Bool)
    (history : Option History) (ds : List DDSData) :
    (∀ (w : Writer) (d : DDSData),
      (w.insert_to_history_cache d).lastChangeSequenceNumber
        = w.lastChangeSequenceNumber + 1) ∧
    (ds.foldl Writer.insert_to_history_cache
        (Writer.new guid reliable history)).lastChangeSequenceNumber
      = ds.length ∧
    (ds.foldl Writer.insert_to_history_cache
        (Writer.new guid reliable history)).firstChangeSequenceNumber
      = (if ds.isEmpty then 0 else 1) ∧
    (ds.foldl Writer.insert_to_history_cache
        (Writer.new guid reliable history)).firstChangeSequenceNumber
      ≤ (ds.foldl Writer.insert_to_history_cache
          (Writer.new guid reliable history)).lastChangeSequenceNumber := by
  obtain ⟨h1, h2⟩ := foldl_insert_counters ds (Writer.new guid reliable history)
  rw [show (Writer.new guid reliable history).lastChangeSequenceNumber = 0
    from rfl, zero_add] at h1
  rw [show (Writer.new guid reliable history).firstChangeSequenceNumber = 0
    from rfl] at h2
  have h2' : (ds.foldl Writer.insert_to_history_cache
      (Writer.new guid reliable history)).firstChangeSequenceNumber
      = (if ds.isEmpty then 0 else 1) := by
    rw [h2]
    by_cases he : ds.isEmpty <;> simp [he]
  refine ⟨fun w d => (insert_to_history_cache_counters w d).1, h1, h2', ?_⟩
  rw [h1, h2']
  cases ds with
  | nil => simp
  | cons d t =>
    rw [List.length_cons]
    simp only [List.isEmpty_cons, if_false]
    push_cast
    omega

/-! ## Theorems: C8 -/

/-- C8.  `handle_ack_nack`: a best-effort Writer ignores the acknack; a
missing proxy for `GUID{source_prefix, acknack.reader_id}` leaves the
Writer unchanged; otherwise the matched proxy receives
`add_requested_changes(set)` when the set is non-empty and
`acked_changes_set(base)` when it is empty, and nothing else changes. -/
theorem handle_ack_nack_spec (w : Writer) (gp : Nat) (an : AckNack) :
    (w.reliable = false → w.handle_ack_nack gp an = w) ∧
    (w.matched_reader_lookup_idx gp an.readerId = none →
      w.handle_ack_nack gp an = w) ∧
    (∀ i p, w.reliable = true →
      w.matched_reader_lookup_idx gp an.readerId = some i →
      w.readers[i]? = some p →
      w.handle_ack_nack gp an =
        { w with readers :=
            (w.readers.set i
              (if an.readerSNState.set.isEmpty then
                p.acked_changes_set an.readerSNState.base
              else
                p.add_requested_changes an.readerSNState.set)) }) := by
  refine ⟨?_, ?_, ?_⟩
  · intro hrel
    unfold Writer.handle_ack_nack
    rw [hrel]
    simp
  · intro hidx
    unfold Writer.handle_ack_nack
    rw [hidx]
    split <;> rfl
  · intro i p hrel hidx hget
    cases hse : an.readerSNState.set.isEmpty <;>
      simp [Writer.handle_ack_nack, hrel, hidx, hget, hse,
        Writer.test_if_ack_nack_contains_not_recieved_sequence_numbers]

/-- C8 witness: the reliable `sampleWriter` receives the concrete
negative acknack `sampleAckNackNegative` for its only proxy. -/
theorem handle_ack_nack_spec_witness :
    sampleWriter.reliable = true ∧
    sampleWriter.matched_reader_lookup_idx 5
        sampleAckNackNegative.readerId = some 0 ∧
    sampleWriter.readers[0]? = some sampleProxy ∧
    sampleWriter.handle_ack_nack 5 sampleAckNackNegative =
      { sampleWriter with readers :=
          (sampleWriter.readers.set 0
            (if sampleAckNackNegative.readerSNState.set.isEmpty then
              sampleProxy.acked_changes_set
                sampleAckNackNegative.readerSNState.base
            else
              sampleProxy.add_requested_changes
                sampleAckNackNegative.readerSNState.set)) } :=
  ⟨rfl, rfl, rfl,
    (handle_ack_nack_spec sampleWriter 5 sampleAckNackNegative).2.2 0
      sampleProxy rfl rfl rfl⟩

/-! ## Theorems: C9 -/

/-- C9.  `matched_reader_add` panics (embedded as `none`) exactly when
an already-matched proxy agrees on both `remote_reader_guid` and
`remote_group_entity_id`; with no such duplicate the proxy is appended
to the Writer's reader set. -/
theorem matched_reader_add_spec (w : Writer) (p : RtpsReaderProxy) :
    (w.matched_reader_add p = none ↔
      ∃ x ∈ w.readers, x.remoteGroupEntityId = p.remoteGroupEntityId ∧
        x.remoteReaderGuid = p.remoteReaderGuid) ∧
    ((¬ ∃ x ∈ w.readers, x.remoteGroupEntityId = p.remoteGroupEntityId ∧
        x.remoteReaderGuid = p.remoteReaderGuid) →
      w.matched_reader_add p = some { w with readers := w.readers ++ [p] }) := by
  unfold Writer.matched_reader_add
  constructor
  · constructor
    · intro hnone
      by_contra hno
      rw [if_neg] at hnone
      · exact Option.noConfusion hnone
      · simp only [List.any_eq_true, Bool.and_eq_true, beq_iff_eq,
          decide_eq_true_eq]
        intro hex
        exact hno (by simpa using hex)
    · intro hex
      rw [if_pos]
      simp only [List.any_eq_true, Bool.and_eq_true, beq_iff_eq]
      simpa using hex
  · intro hno
    rw [if_neg]
    simp only [List.any_eq_true, Bool.and_eq_true, beq_iff_eq]
    intro hex
    exact hno (by simpa using hex)

/-- C9 witness: adding a duplicate of `sampleProxy` to `sampleWriter`
panics; adding a proxy with a fresh GUID appends it. -/
theorem matched_reader_add_spec_witness :
    sampleWriter.matched_reader_add sampleProxyDup = none ∧
    sampleWriter.matched_reader_add sampleProxyFresh
      = some { sampleWriter with
          readers := sampleWriter.readers ++ [sampleProxyFresh] } :=
  ⟨(matched_reader_add_spec sampleWriter sampleProxyDup).1.mpr
      ⟨sampleProxy, by simp [sampleWriter], by simp [sampleProxyDup]⟩,
    (matched_reader_add_spec sampleWriter sampleProxyFresh).2 (by
      rintro ⟨x, hx, -, hguid⟩
      simp only [sampleWriter, Writer.new, List.mem_singleton] at hx
      subst hx
      simp [sampleProxy, sampleProxyFresh] at hguid)⟩

/-! ## Theorems: C5 -/

/-- C5.  In state `SecureSubmessage(p, s)` any submessage other than a
SecurePostfix resets the machine to `None` and delivers nothing — so
the buffered submessage is dispatched only when a SecurePostfix follows
it immediately — and a SecurePostfix arriving in state `None` is
dropped: the receiver is unchanged and nothing is delivered. -/
theorem secure_submessage_dispatch_gate
    (r : MessageReceiver) (sub : Submessage) :
    (∀ p s, r.secureReceiverState = some (.secureSubmessage p s) →
      (∀ q, sub.body ≠ .security (.securePostfix q)) →
      (r.handle_submessage sub).1.secureReceiverState = none ∧
      (r.handle_submessage sub).2 = []) ∧
    (r.secureReceiverState = none →
      ∀ q, sub.body = .security (.securePostfix q) →
        (r.handle_submessage sub).1 = r ∧
        (r.handle_submessage sub).2 = []) := by
  constructor
  · intro p s hst hnp
    obtain ⟨body⟩ := sub
    unfold MessageReceiver.handle_submessage
    rw [hst]
    dsimp only
    cases body with
    | interpreter m => exact ⟨rfl, rfl⟩
    | writer m => exact ⟨rfl, rfl⟩
    | reader m => exact ⟨rfl, rfl⟩
    | security m =>
      cases m with
      | securePostfix q => exact absurd rfl (hnp q)
      | secureBody c => exact ⟨rfl, rfl⟩
      | securePrefix c => exact ⟨rfl, rfl⟩
      | secureRTPSPrefix c => exact ⟨rfl, rfl⟩
      | secureRTPSPostfix c => exact ⟨rfl, rfl⟩
  · intro hst q hsub
    obtain ⟨body⟩ := sub
    simp only at hsub
    subst hsub
    unfold MessageReceiver.handle_submessage
    rw [hst]
    dsimp only
    unfold MessageReceiver.handleSubmessageStateNone
    dsimp only
    have hr : ({ r with secureReceiverState := none } : MessageReceiver) = r := by
      obtain ⟨a, b, c, d, e, f, g, h, i, j⟩ := r
      simp only at hst
      rw [hst]
    rw [hr]
    split <;> exact ⟨rfl, rfl⟩

/-- C5 witness: the concrete receiver in state `SecureSubmessage`
receives a plain Data submessage (state resets, nothing delivered), and
the concrete receiver in state `None` receives a SecurePostfix (dropped
unchanged). -/
theorem secure_state_machine_witness :
    ((receiverInSecureSubmessageState.handle_submessage
        ⟨.writer ⟨8⟩⟩).1.secureReceiverState = none ∧
      (receiverInSecureSubmessageState.handle_submessage
        ⟨.writer ⟨8⟩⟩).2 = []) ∧
    ((receiverInNoneState.handle_submessage
        ⟨.security (.securePostfix 4)⟩).1 = receiverInNoneState ∧
      (receiverInNoneState.handle_submessage
        ⟨.security (.securePostfix 4)⟩).2 = []) :=
  ⟨(secure_submessage_dispatch_gate
      receiverInSecureSubmessageState ⟨.writer ⟨8⟩⟩).1
      3 ⟨.writer ⟨7⟩⟩ rfl (fun q h => SubmessageBody.noConfusion h),
    (secure_submessage_dispatch_gate
      receiverInNoneState ⟨.security (.securePostfix 4)⟩).2 rfl 4 rfl⟩

/-! ## Theorems: C6

Helper lemmas about the `BTreeMap` embedding and the removal loop,
leading to the cache-cleaning theorem. -/

/-- Everything in the result of a `btreeInsert` is the new pair or an
old entry. -/
theorem mem_btreeInsert {α β : Type} [LinearOrder α]
    {l : List (α × β)} {k : α} {v : β} {x : α × β}
    (hx : x ∈ btreeInsert l k v) : x = (k, v) ∨ x ∈ l := by
  induction l with
  | nil => simpa [btreeInsert] using hx
  | cons a rest ih =>
    unfold btreeInsert at hx
    by_cases h1 : k < a.1
    · rw [if_pos h1] at hx
      rcases List.mem_cons.mp hx with h | h
      · exact Or.inl h
      · exact Or.inr h
    · rw [if_neg h1] at hx
      by_cases h2 : k = a.1
      · rw [if_pos h2] at hx
        rcases List.mem_cons.mp hx with h | h
        · exact Or.inl h
        · exact Or.inr (List.mem_cons_of_mem a h)
      · rw [if_neg h2] at hx
        rcases List.mem_cons.mp hx with h | h
        · exact Or.inr (h ▸ List.mem_cons_self a rest)
        · rcases ih h with h' | h'
          · exact Or.inl h'
          · exact Or.inr (List.mem_cons_of_mem a h')

/-- `btreeInsert` preserves strict sortedness by key. -/
theorem btreeInsert_pairwise {α β : Type} [LinearOrder α]
    {l : List (α × β)} (k : α) (v : β)
    (hl : l.Pairwise fun a b => a.1 < b.1) :
    (btreeInsert l k v).Pairwise fun a b => a.1 < b.1 := by
  induction l with
  | nil => simp [btreeInsert]
  | cons a rest ih =>
    rw [List.pairwise_cons] at hl
    obtain ⟨ha, hrest⟩ := hl
    unfold btreeInsert
    by_cases h1 : k < a.1
    · rw [if_pos h1]
      refine List.pairwise_cons.mpr ⟨?_, List.pairwise_cons.mpr ⟨ha, hrest⟩⟩
      intro b hb
      rcases List.mem_cons.mp hb with h | h
      · rw [h]; exact h1
      · exact lt_trans h1 (ha b h)
    · rw [if_neg h1]
      by_cases h2 : k = a.1
      · rw [if_pos h2]
        refine List.pairwise_cons.mpr ⟨?_, hrest⟩
        intro b hb
        exact h2 ▸ ha b hb
      · rw [if_neg h2]
        refine List.pairwise_cons.mpr ⟨?_, ih hrest⟩
        intro b hb
        rcases mem_btreeInsert hb with h | h
        · rw [h]
          exact lt_of_le_of_ne (not_lt.mp h1) (Ne.symm h2)
        · exact ha b h

/-- Inserting a fresh key is, up to permutation, consing the pair. -/
theorem btreeInsert_perm {α β : Type} [LinearOrder α]
    {l : List (α × β)} (k : α) (v : β)
    (hk : ∀ e ∈ l, e.1 ≠ k) :
    (btreeInsert l k v).Perm ((k, v) :: l) := by
  induction l with
  | nil => simp [btreeInsert]
  | cons a rest ih =>
    unfold btreeInsert
    by_cases h1 : k < a.1
    · rw [if_pos h1]
    · rw [if_neg h1]
      by_cases h2 : k = a.1
      · exact absurd h2.symm (hk a (List.mem_cons_self a rest))
      · rw [if_neg h2]
        have hperm := ih fun e he => hk e (List.mem_cons_of_mem a he)
        exact (hperm.cons a).trans (List.Perm.swap (k, v) a rest)

/-- The fold of `btreeInsert` that builds `acked_by_all_readers`: the
result is sorted by key and is a permutation of the swapped input. -/
theorem foldl_btreeInsert_spec (ps : List (Int × Nat)) :
    ∀ (acc : List (Nat × Int)),
    (acc.Pairwise fun a b => a.1 < b.1) →
    (∀ e ∈ ps, ∀ a ∈ acc, a.1 ≠ e.2) →
    (ps.map Prod.snd).Nodup →
    ((ps.foldl (fun m e => btreeInsert m e.2 e.1) acc).Pairwise
      fun a b => a.1 < b.1) ∧
    (ps.foldl (fun m e => btreeInsert m e.2 e.1) acc).Perm
      ((ps.map fun e => (e.2, e.1)) ++ acc) := by
  induction ps with
  | nil => intro acc hacc _ _; exact ⟨hacc, List.Perm.refl _⟩
  | cons e ps ih =>
    intro acc hacc hdisj hnd
    rw [List.map_cons, List.nodup_cons] at hnd
    obtain ⟨hnotin, hnd'⟩ := hnd
    simp only [List.foldl_cons]
    have hfresh : ∀ a ∈ acc, a.1 ≠ e.2 :=
      fun a ha => hdisj e (List.mem_cons_self e ps) a ha
    have hacc' := btreeInsert_pairwise e.2 e.1 hacc
    have hperm1 := btreeInsert_perm (l := acc) e.2 e.1 hfresh
    have hdisj' : ∀ e' ∈ ps, ∀ a ∈ btreeInsert acc e.2 e.1, a.1 ≠ e'.2 := by
      intro e' he' a ha
      rcases mem_btreeInsert ha with h | h
      · rw [h]
        intro hcon
        apply hnotin
        have he2 : e.2 = e'.2 := hcon
        rw [he2]
        exact List.mem_map_of_mem Prod.snd he'
      · exact hdisj e' (List.mem_cons_of_mem e he') a h
    obtain ⟨hs, hp⟩ := ih (btreeInsert acc e.2 e.1) hacc' hdisj' hnd'
    refine ⟨hs, ?_⟩
    refine hp.trans ((List.Perm.append_left _ hperm1).trans ?_)
    simpa using
      (List.perm_middle :
        ((ps.map fun e => (e.2, e.1)) ++ (e.2, e.1) :: acc).Perm
          ((e.2, e.1) :: ((ps.map fun e => (e.2, e.1)) ++ acc)))

/-- `acked_by_all_readers` is the acked-by-all part of the
sequence-number index, swapped to be keyed and sorted by instant. -/
theorem ackedByAllReaders_spec (w : Writer)
    (hsn : (w.sequenceNumberToInstant.map Prod.snd).Nodup) :
    (w.ackedByAllReaders.Pairwise fun a b => a.1 < b.1) ∧
    w.ackedByAllReaders.Perm
      ((w.sequenceNumberToInstant.filter fun e =>
          w.change_with_sequence_number_is_acked_by_all e.1).map
        fun e => (e.2, e.1)) := by
  have hnd : ((w.sequenceNumberToInstant.filter fun e =>
      w.change_with_sequence_number_is_acked_by_all e.1).map
        Prod.snd).Nodup :=
    hsn.sublist ((List.filter_sublist _).map Prod.snd)
  obtain ⟨hs, hp⟩ := foldl_btreeInsert_spec
    (w.sequenceNumberToInstant.filter fun e =>
      w.change_with_sequence_number_is_acked_by_all e.1) []
    (List.Pairwise.nil) (by intro _ _ a ha; cases ha) hnd
  exact ⟨hs, by simpa using hp⟩

/-- Looking an entry up by key in an association list with distinct keys
finds the entry. -/
theorem find?_key_eq {β : Type} (C : List (Nat × β)) (i : Nat) (c : β)
    (hmem : (i, c) ∈ C) (hnd : (C.map Prod.fst).Nodup) :
    C.find? (fun e => e.1 == i) = some (i, c) := by
  induction C with
  | nil => cases hmem
  | cons a rest ih =>
    rw [List.map_cons, List.nodup_cons] at hnd
    obtain ⟨hnotin, hnd'⟩ := hnd
    rcases List.mem_cons.mp hmem with h | h
    · rw [← h]
      exact List.find?_cons_of_pos _ (by simp)
    · have hi : i ∈ rest.map Prod.fst := List.mem_map_of_mem Prod.fst h
      have hne : a.1 ≠ i := fun hcon => hnotin (hcon ▸ hi)
      rw [List.find?_cons_of_neg _ (by simp [hne])]
      exact ih h hnd'

/-- The removal loop of `remove_all_acked_changes_but_keep_depth`: when
the processed entries have distinct instants, each indexing a cache
entry with the recorded sequence number, the loop removes exactly those
instants from the topic cache and returns their sequence numbers in
order. -/
theorem foldl_removeChangeStep (ts : List (Nat × Int)) :
    ∀ (w0 : Writer) (rs : List Int),
    (ts.map Prod.fst).Nodup →
    (∀ e ∈ ts, ∃ c, (e.1, c) ∈ w0.topicCache ∧ c.sequence_number = e.2) →
    ((w0.topicCache.map Prod.fst).Nodup) →
    ts.foldl Writer.removeChangeStep (w0, rs) =
      ({ w0 with topicCache :=
          (w0.topicCache.filter fun ce => ¬ ce.1 ∈ ts.map Prod.fst) },
        rs ++ ts.map Prod.snd) := by
  induction ts with
  | nil =>
    intro w0 rs _ _ _
    simp
  | cons e ts ih =>
    intro w0 rs hnd hmem hck
    rw [List.map_cons, List.nodup_cons] at hnd
    obtain ⟨hnotin, hnd'⟩ := hnd
    obtain ⟨c, hcmem, hcseq⟩ := hmem e (List.mem_cons_self e ts)
    have hfind : w0.topicCache.find? (fun ce => ce.1 == e.1) = some (e.1, c) :=
      find?_key_eq _ _ _ hcmem hck
    have hstep : Writer.removeChangeStep (w0, rs) e =
        ({ w0 with topicCache :=
            (w0.topicCache.filter fun ce => ¬ ce.1 = e.1) },
          rs ++ [e.2]) := by
      unfold Writer.removeChangeStep Writer.fromTopicRemoveChange
      rw [hfind]
      simp [hcseq]
    rw [List.foldl_cons, hstep]
    have hmem' : ∀ e' ∈ ts, ∃ c',
        (e'.1, c') ∈ (w0.topicCache.filter fun ce => ¬ ce.1 = e.1) ∧
        c'.sequence_number = e'.2 := by
      intro e' he'
      obtain ⟨c', hc'mem, hc'seq⟩ := hmem e' (List.mem_cons_of_mem e he')
      have hne : e'.1 ≠ e.1 := by
        intro hcon
        exact hnotin (hcon ▸ List.mem_map_of_mem Prod.fst he')
      exact ⟨c', List.mem_filter.mpr ⟨hc'mem, by simp [hne]⟩, hc'seq⟩
    have hck' : (((w0.topicCache.filter fun ce => ¬ ce.1 = e.1)).map
        Prod.fst).Nodup :=
      hck.sublist ((List.filter_sublist _).map Prod.fst)
    rw [ih _ _ hnd' hmem' hck']
    refine Prod.ext ?_ ?_
    · show ({ w0 with topicCache :=
        ((w0.topicCache.filter fun ce => ¬ ce.1 = e.1).filter
          fun ce => ¬ ce.1 ∈ ts.map Prod.fst) } : Writer) = _
      have hfil : ((w0.topicCache.filter fun ce => ¬ ce.1 = e.1).filter
          fun ce => ¬ ce.1 ∈ ts.map Prod.fst)
          = (w0.topicCache.filter
              fun ce => ¬ ce.1 ∈ (e :: ts).map Prod.fst) := by
        rw [List.filter_filter]
        refine List.filter_congr ?_
        intro ce _
        by_cases hc1 : ce.1 = e.1 <;>
          by_cases hc2 : ce.1 ∈ ts.map Prod.fst <;> simp [hc1, hc2]
      rw [hfil]
    · show rs ++ [e.2] ++ ts.map Prod.snd = rs ++ (e :: ts).map Prod.snd
      simp

/-- C6.  For a Writer with history `KeepLast{d}` (`d ≥ 0`), one
cache-cleaning pass works on `acked_by_all_readers` — the entries of the
sequence-number index whose change is acked by every matched reader,
re-keyed and ascending by insertion instant — and evicts exactly the
oldest `count − d` of them when `count > d` (nothing otherwise); among
the all-acked changes the number still in the topic cache afterwards is
`min(N_acked, d)`, and every evicted sequence number is gone from the
sequence-number-to-instant index.  The hypotheses are the Writer's data
invariants: insertion instants are distinct, cache keys are distinct,
and every indexed `(seq, instant)` pair has a cache entry at that
instant carrying that sequence number. -/
theorem keep_last_depth_eviction (w : Writer) (d : Int)
    (hq : w.history = some (.keepLast d))
    (hd : 0 ≤ d)
    (hsn : (w.sequenceNumberToInstant.map Prod.snd).Nodup)
    (hck : (w.topicCache.map Prod.fst).Nodup)
    (hidx : ∀ e ∈ w.sequenceNumberToInstant,
      ∃ ce ∈ w.topicCache, ce.1 = e.2 ∧ ce.2.sequence_number = e.1) :
    ((w.ackedByAllReaders.Pairwise fun a b => a.1 < b.1) ∧
      ∀ i s, ((i, s) ∈ w.ackedByAllReaders ↔
        (s, i) ∈ w.sequenceNumberToInstant ∧
          w.change_with_sequence_number_is_acked_by_all s = true)) ∧
    (w.remove_all_acked_changes_but_keep_depth d).2
      = (if (w.ackedByAllReaders.length : Int) ≤ d then []
         else ((w.ackedByAllReaders.take
            (((w.ackedByAllReaders.length : Int) - d).toNat)).map Prod.snd)) ∧
    (w.ackedByAllReaders.countP fun e =>
        (w.handle_cache_cleaning).topicCache.any fun ce => ce.1 == e.1)
      = min w.ackedByAllReaders.length d.toNat ∧
    (∀ s ∈ (w.remove_all_acked_changes_but_keep_depth d).2,
      ∀ e ∈ (w.handle_cache_cleaning).sequenceNumberToInstant, e.1 ≠ s) := by
  obtain ⟨hsorted, hperm⟩ := ackedByAllReaders_spec w hsn
  have memA : ∀ i s, ((i, s) ∈ w.ackedByAllReaders ↔
      (s, i) ∈ w.sequenceNumberToInstant ∧
        w.change_with_sequence_number_is_acked_by_all s = true) := by
    intro i s
    rw [hperm.mem_iff, List.mem_map]
    constructor
    · rintro ⟨e, he, heq⟩
      obtain ⟨he1, hack⟩ := List.mem_filter.mp he
      obtain ⟨h2, h1⟩ := Prod.mk.injEq .. ▸ heq
      have hes : e = (s, i) := by
        obtain ⟨e1, e2⟩ := e
        simp only at h1 h2
        rw [h1, h2]
      rw [hes] at he1 hack
      exact ⟨he1, by simpa using hack⟩
    · rintro ⟨hmem, hack⟩
      exact ⟨(s, i), List.mem_filter.mpr ⟨hmem, by simpa using hack⟩, rfl⟩
  have hkeysnd : (w.ackedByAllReaders.map Prod.fst).Nodup :=
    (List.pairwise_map.mpr hsorted).imp fun h => ne_of_lt h
  have hclean : w.handle_cache_cleaning =
      { (w.remove_all_acked_changes_but_keep_depth d).1 with
        sequenceNumberToInstant :=
          ((w.remove_all_acked_changes_but_keep_depth
              d).1.sequenceNumberToInstant.filter
            fun e => ¬ e.1 ∈ (w.remove_all_acked_changes_but_keep_depth d).2) } := by
    unfold Writer.handle_cache_cleaning
    rw [hq]
  have hcachemem : ∀ e ∈ w.ackedByAllReaders,
      ∃ c, (e.1, c) ∈ w.topicCache ∧ c.sequence_number = e.2 := by
    intro e he
    obtain ⟨hmem, -⟩ := (memA e.1 e.2).mp he
    obtain ⟨ce, hcemem, hce1, hce2⟩ := hidx (e.2, e.1) hmem
    have hce1' : ce.1 = e.1 := hce1
    refine ⟨ce.2, ?_, hce2⟩
    rw [← hce1']
    exact hcemem
  refine ⟨⟨hsorted, memA⟩, ?_, ?_, ?_⟩
  · by_cases hNd : (w.ackedByAllReaders.length : Int) ≤ d
    · rw [if_pos hNd]
      unfold Writer.remove_all_acked_changes_but_keep_depth
      rw [if_pos hNd]
    · rw [if_neg hNd]
      unfold Writer.remove_all_acked_changes_but_keep_depth
      rw [if_neg hNd]
      have hTnd : (((w.ackedByAllReaders.take
          (((w.ackedByAllReaders.length : Int) - d).toNat)).map
            Prod.fst)).Nodup := by
        rw [List.map_take]
        exact hkeysnd.sublist (List.take_sublist _ _)
      have hTmem : ∀ e ∈ w.ackedByAllReaders.take
          (((w.ackedByAllReaders.length : Int) - d).toNat),
          ∃ c, (e.1, c) ∈ w.topicCache ∧ c.sequence_number = e.2 :=
        fun e he => hcachemem e ((List.take_sublist _ _).mem he)
      have hfold := foldl_removeChangeStep _ w [] hTnd hTmem hck
      rw [hfold]
      simp
  · by_cases hNd : (w.ackedByAllReaders.length : Int) ≤ d
    · have hrem : w.remove_all_acked_changes_but_keep_depth d = (w, []) := by
        unfold Writer.remove_all_acked_changes_but_keep_depth
        rw [if_pos hNd]
      rw [hclean, hrem]
      dsimp only
      have hall : ∀ e ∈ w.ackedByAllReaders,
          ((w.topicCache.any fun ce => ce.1 == e.1) = true) := by
        intro e he
        obtain ⟨c, hcm, -⟩ := hcachemem e he
        exact List.any_eq_true.mpr ⟨(e.1, c), hcm, by simp⟩
      have hle : w.ackedByAllReaders.length ≤ d.toNat := by omega
      rw [List.countP_eq_length.mpr hall, Nat.min_eq_left hle]
    · have hTnd : (((w.ackedByAllReaders.take
          (((w.ackedByAllReaders.length : Int) - d).toNat)).map
            Prod.fst)).Nodup := by
        rw [List.map_take]
        exact hkeysnd.sublist (List.take_sublist _ _)
      have hTmem : ∀ e ∈ w.ackedByAllReaders.take
          (((w.ackedByAllReaders.length : Int) - d).toNat),
          ∃ c, (e.1, c) ∈ w.topicCache ∧ c.sequence_number = e.2 :=
        fun e he => hcachemem e ((List.take_sublist _ _).mem he)
      have hfold := foldl_removeChangeStep _ w [] hTnd hTmem hck
      have hrem : w.remove_all_acked_changes_but_keep_depth d =
          ({ w with topicCache :=
              (w.topicCache.filter fun ce =>
                ¬ ce.1 ∈ ((w.ackedByAllReaders.take
                  (((w.ackedByAllReaders.length : Int) - d).toNat)).map
                    Prod.fst)) },
            ((w.ackedByAllReaders.take
              (((w.ackedByAllReaders.length : Int) - d).toNat)).map
                Prod.snd)) := by
        unfold Writer.remove_all_acked_changes_but_keep_depth
        rw [if_neg hNd, hfold]
        simp
      rw [hclean, hrem]
      dsimp only
      have hsplitkeys : (w.ackedByAllReaders.map Prod.fst)
          = ((w.ackedByAllReaders.take
              (((w.ackedByAllReaders.length : Int) - d).toNat)).map Prod.fst)
            ++ ((w.ackedByAllReaders.drop
              (((w.ackedByAllReaders.length : Int) - d).toNat)).map
                Prod.fst) := by
        rw [← List.map_append, List.take_append_drop]
      have hdisjoint := List.disjoint_of_nodup_append (hsplitkeys ▸ hkeysnd)
      have hsplit : ∀ p : Nat × Int → Bool,
          w.ackedByAllReaders.countP p
            = (w.ackedByAllReaders.take
                (((w.ackedByAllReaders.length : Int) - d).toNat)).countP p
              + (w.ackedByAllReaders.drop
                (((w.ackedByAllReaders.length : Int) - d).toNat)).countP p := by
        intro p
        conv_lhs =>
          rw [← List.take_append_drop
            (((w.ackedByAllReaders.length : Int) - d).toNat)
            w.ackedByAllReaders]
        rw [List.countP_append]
      rw [hsplit]
      have hz : ((w.ackedByAllReaders.take
          (((w.ackedByAllReaders.length : Int) - d).toNat)).countP
            fun e => ((w.topicCache.filter fun ce =>
              ¬ ce.1 ∈ ((w.ackedByAllReaders.take
                (((w.ackedByAllReaders.length : Int) - d).toNat)).map
                  Prod.fst)).any fun ce => ce.1 == e.1)) = 0 := by
        rw [List.countP_eq_zero]
        intro e he hp
        obtain ⟨ce, hcem, hcek⟩ := List.any_eq_true.mp hp
        obtain ⟨-, hcefil⟩ := List.mem_filter.mp hcem
        rw [beq_iff_eq] at hcek
        simp only [decide_eq_true_eq] at hcefil
        exact hcefil (hcek ▸ List.mem_map_of_mem Prod.fst he)
      have hfull : ((w.ackedByAllReaders.drop
          (((w.ackedByAllReaders.length : Int) - d).toNat)).countP
            fun e => ((w.topicCache.filter fun ce =>
              ¬ ce.1 ∈ ((w.ackedByAllReaders.take
                (((w.ackedByAllReaders.length : Int) - d).toNat)).map
                  Prod.fst)).any fun ce => ce.1 == e.1))
          = (w.ackedByAllReaders.drop
            (((w.ackedByAllReaders.length : Int) - d).toNat)).length := by
        rw [List.countP_eq_length]
        intro e he
        obtain ⟨c, hcm, -⟩ :=
          hcachemem e ((List.drop_sublist _ _).mem he)
        have hnot : ¬ e.1 ∈ ((w.ackedByAllReaders.take
            (((w.ackedByAllReaders.length : Int) - d).toNat)).map
              Prod.fst) := by
          intro hcon
          exact (hdisjoint hcon) (List.mem_map_of_mem Prod.fst he)
        exact List.any_eq_true.mpr
          ⟨(e.1, c), List.mem_filter.mpr ⟨hcm, by simpa using hnot⟩, by simp⟩
      rw [hz, hfull, List.length_drop,
        Nat.min_eq_right (by omega : d.toNat ≤ w.ackedByAllReaders.length)]
      omega
  · intro s hs e he
    rw [hclean] at he
    obtain ⟨-, hnot⟩ := List.mem_filter.mp he
    simp only [decide_eq_true_eq] at hnot
    intro hcon
    exact hnot (hcon ▸ hs)

/-- C6 witness: the cleaning pass on `cacheWriter` (three all-acked
changes, depth 1) satisfies the eviction theorem: two oldest changes
evicted, one retained, index cleaned. -/
theorem keep_last_depth_eviction_witness :
    cacheWriter.history = some (.keepLast 1) ∧
    ((((cacheWriter.ackedByAllReaders.Pairwise fun a b => a.1 < b.1) ∧
      ∀ i s, ((i, s) ∈ cacheWriter.ackedByAllReaders ↔
        (s, i) ∈ cacheWriter.sequenceNumberToInstant ∧
          cacheWriter.change_with_sequence_number_is_acked_by_all
            s = true)) ∧
    (cacheWriter.remove_all_acked_changes_but_keep_depth 1).2
      = (if (cacheWriter.ackedByAllReaders.length : Int) ≤ 1 then []
         else ((cacheWriter.ackedByAllReaders.take
            (((cacheWriter.ackedByAllReaders.length : Int) - 1).toNat)).map
              Prod.snd)) ∧
    (cacheWriter.ackedByAllReaders.countP fun e =>
        (cacheWriter.handle_cache_cleaning).topicCache.any
          fun ce => ce.1 == e.1)
      = min cacheWriter.ackedByAllReaders.length (1 : Int).toNat ∧
    (∀ s ∈ (cacheWriter.remove_all_acked_changes_but_keep_depth 1).2,
      ∀ e ∈ (cacheWriter.handle_cache_cleaning).sequenceNumberToInstant,
        e.1 ≠ s))) :=
  ⟨rfl, keep_last_depth_eviction cacheWriter 1 rfl (by decide) (by decide)
    (by decide) (by decide)⟩

end RustDDS
